import Mathlib

/-!
Shallow embedding of `src/cmd/regres/main.go` (package main of the `regres`
tool): a sequential driver that, for each revision in a window, checks out
the revision, builds, records artifact sizes, optionally captures a trace
and extracts workload statistics, optionally times an incremental rebuild,
and prints a table of the surviving result records.

External effects (git, bazel, the gapit executable, the file system) are
modelled by explicit outcome parameters: each external call's result is an
input to the embedded function, and the embedded function reproduces the Go
control flow on those results.
-/

namespace Regres

/-! ## Stats output parsing (`captureStats`, main.go:304-333)

The Go code scans the stats executable's stdout with the regular expression
`([a-zA-Z]+):\s+([0-9]+)` (`regexp.FindAllStringSubmatch(stdout, -1)`:
successive non-overlapping leftmost matches), converts the digit group with
`strconv.Atoi`, and assigns the value to whichever of the three recognized
counter names the word group equals.  For this particular pattern the
greedy leftmost-first semantics of Go's engine coincide with maximal-munch
scanning: a shorter letter run can never be followed by `:`, a shorter
whitespace run can never be followed by a digit. -/

/-- Character class `[a-zA-Z]` of the Go regular expression. -/
def letterB (c : Char) : Bool :=
  ('a' ≤ c && c ≤ 'z') || ('A' ≤ c && c ≤ 'Z')

/-- Character class `\s` of Go's regexp syntax, which is `[\t\n\f\r ]`. -/
def spaceB (c : Char) : Bool :=
  c = '\t' || c = '\n' || c = '\x0c' || c = '\r' || c = ' '

/-- Character class `[0-9]` of the Go regular expression. -/
def digitB (c : Char) : Bool :=
  '0' ≤ c && c ≤ '9'

/-- Attempt to match `([a-zA-Z]+):\s+([0-9]+)` at the head of `s`.
Returns `some (word, digits, rest)` on success, where `rest` is the suffix
after the match. -/
def matchAt (s : List Char) : Option (List Char × List Char × List Char) :=
  match s.span letterB with
  | (w, r1) =>
    if w.isEmpty then none
    else
      match r1 with
      | ':' :: r2 =>
        match r2.span spaceB with
        | (sp, r3) =>
          if sp.isEmpty then none
          else
            match r3.span digitB with
            | (d, r4) => if d.isEmpty then none else some (w, d, r4)
      | _ => none

/-- Fuelled scanner for all successive non-overlapping matches (the fuel is
an upper bound on the number of scanning steps; every step consumes at
least one character, so fuel `s.length` is always sufficient). -/
def findAllAux : Nat → List Char → List (List Char × List Char)
  | 0, _ => []
  | _ + 1, [] => []
  | fuel + 1, c :: rest =>
    match matchAt (c :: rest) with
    | some (w, d, r) => (w, d) :: findAllAux fuel r
    | none => findAllAux fuel rest

/-- All non-overlapping matches of `([a-zA-Z]+):\s+([0-9]+)` in `s`, in
left-to-right order, as (word group, digit group) pairs — the model of
`re.FindAllStringSubmatch(stdout, -1)` at main.go:315. -/
def findAllMatches (s : List Char) : List (List Char × List Char) :=
  findAllAux s.length s

/-- Model of `strconv.Atoi` on a digit-only string: the decimal value, or
`none` when the value overflows a 64-bit `int` (9223372036854775807 is the
largest representable value); this is the only way `Atoi` can fail on a
string matched by `[0-9]+`. -/
def atoi (d : List Char) : Option Nat :=
  let n := d.foldl (fun a c => a * 10 + (c.toNat - 48)) 0
  if n ≤ 9223372036854775807 then some n else none

/-- The three counters extracted from the stats output
(`stats.CaptureStats`, main.go:70-74). -/
structure CaptureCounters where
  frames : Nat
  draws : Nat
  commands : Nat
deriving DecidableEq

/-- One iteration of the match loop at main.go:315-331: convert the digit
group with `Atoi` (a failure skips the match), then assign to the counter
selected by the word group; unrecognized words fall through the `switch`
and change nothing. -/
def applyMatch (c : CaptureCounters) (m : List Char × List Char) : CaptureCounters :=
  match atoi m.2 with
  | none => c
  | some n =>
    if m.1 = "Frames".toList then { c with frames := n }
    else if m.1 = "Draws".toList then { c with draws := n }
    else if m.1 = "Commands".toList then { c with commands := n }
    else c

/-- The counters obtained by folding the match loop over all matches of the
stats pattern in `s`, starting from the zero defaults of Go's named return
values. -/
def captureStatsParse (s : List Char) : CaptureCounters :=
  (findAllMatches s).foldl applyMatch ⟨0, 0, 0⟩

/-- Result of `captureStats` (main.go:304): the three named `int` returns
and the named `error` return. -/
structure CaptureStatsResult where
  numFrames : Nat
  numDraws : Nat
  numCmds : Nat
  err : Option Unit
deriving DecidableEq

/-- Model of `captureStats` (main.go:304-333).  The argument is the outcome
of the `gapit stats` child-process invocation: `Except.error` when
`cmd.Call` failed, `Except.ok stdout` otherwise.  On invocation failure the
Go code returns `0, 0, 0, nil`; on success it parses `stdout` and the named
`err` return is `nil` at the final naked `return` (the `err` of the
`Atoi` call inside the loop is a shadowing redeclaration). -/
def captureStats (callResult : Except Unit (List Char)) : CaptureStatsResult :=
  match callResult with
  | Except.error _ => ⟨0, 0, 0, none⟩
  | Except.ok stdout =>
    let c := captureStatsParse stdout
    ⟨c.frames, c.draws, c.commands, none⟩

/-- Projection of the counter selected by a recognized counter name `w`
(one of the three words of the `switch` at main.go:323-330); used to state
the last-occurrence property uniformly for Frames, Draws and Commands. -/
def counterOf (w : List Char) (c : CaptureCounters) : Nat :=
  if w = "Frames".toList then c.frames
  else if w = "Draws".toList then c.draws
  else if w = "Commands".toList then c.commands
  else 0

/-! ## OS-dependent artifact names (`dllExt`, `exeExt`, main.go:267-285) -/

/-- Model of `dllExt` (main.go:267-276), with `runtime.GOOS` passed
explicitly. -/
def dllExt (goos : String) (n : String) : String :=
  if goos = "windows" then n ++ ".dll"
  else if goos = "darwin" then n ++ ".dylib"
  else n ++ ".so"

/-- Model of `exeExt` (main.go:278-285), with `runtime.GOOS` passed
explicitly. -/
def exeExt (goos : String) (n : String) : String :=
  if goos = "windows" then n ++ ".exe" else n

/-! ## Trace capture (`trace`, main.go:289-302) -/

/-- Model of `trace` (main.go:289-302).  `callOk` is the outcome of the
`gapit trace` child-process invocation; `fileAfterCall` is the state
(content) of the fixed output file after the child process ran, `none`
meaning absent.  On invocation failure the Go code removes the partial
output file (`os.Remove(file)`) and returns the error with an empty path;
on success it returns the path.  The result pairs the Go return value with
the output file's state after `trace` returns. -/
def trace (callOk : Bool) (fileAfterCall : Option (List Char)) :
    Except Unit String × Option (List Char) :=
  if callOk then (Except.ok "gapid-regres.gfxtrace", fileAfterCall)
  else (Except.error (), none)

/-! ## The result record (`stats`, main.go:55-75) -/

/-- The `FileSizes` sub-struct of `stats` (main.go:59-69): byte sizes of
the nine fixed artifacts, `int64`, zero defaults. -/
structure FileSizes where
  libGAPII : Int
  libVkLayerVirtualSwapchain : Int
  gapidAarch64APK : Int
  gapidArmeabi64APK : Int
  gapidX86APK : Int
  gapid : Int
  gapir : Int
  gapis : Int
  gapit : Int
deriving DecidableEq

/-- One result record (`stats`, main.go:55-75).  `buildTime` is declared in
the Go struct but never assigned (the full-build duration at main.go:125 is
discarded), so it stays at its zero default. -/
structure RevStats where
  sha : List Char
  buildTime : Nat
  incrementalBuildTime : Nat
  fileSizes : FileSizes
  captureStats : CaptureCounters
deriving DecidableEq

/-- Outcomes of the nine `os.Stat` calls of the artifact-size loop
(main.go:131-152): `some size` when the stat succeeded, `none` when it
failed (the warning is logged and the field is left at zero). -/
structure ArtifactStatResults where
  libGAPII : Option Int
  libVkLayerVirtualSwapchain : Option Int
  gapidAarch64APK : Option Int
  gapidArmeabi64APK : Option Int
  gapidX86APK : Option Int
  gapid : Option Int
  gapir : Option Int
  gapis : Option Int
  gapit : Option Int

/-- The artifact-size loop (main.go:131-152): each field receives the
stat'ed size, or keeps its zero default when the stat failed. -/
def gatherFileSizes (a : ArtifactStatResults) : FileSizes where
  libGAPII := a.libGAPII.getD 0
  libVkLayerVirtualSwapchain := a.libVkLayerVirtualSwapchain.getD 0
  gapidAarch64APK := a.gapidAarch64APK.getD 0
  gapidArmeabi64APK := a.gapidArmeabi64APK.getD 0
  gapidX86APK := a.gapidX86APK.getD 0
  gapid := a.gapid.getD 0
  gapir := a.gapir.getD 0
  gapis := a.gapis.getD 0
  gapit := a.gapit.getD 0

/-! ## Incremental-build perturbation (`withTouchedGLES`, main.go:234-248) -/

/-- State of the watched source file `gapis/api/gles/gles.api`: its byte
content and its permission mode. -/
structure GlesFile where
  content : List Char
  mode : Nat
deriving DecidableEq

/-- Model of `ioutil.WriteFile` on a file that already exists: the content
is replaced, and the permission argument is ignored because the mode of an
existing file is not changed by `WriteFile` (the perm applies only at
creation). -/
def writeFile (g : GlesFile) (data : List Char) (_perm : Nat) : GlesFile :=
  { content := data, mode := g.mode }

/-- The perturbed file content written at main.go:244-245:
`fmt.Sprintf("%v\ncmd void fake_cmd_%d() {}\n", string(glesAPI), r.Int())`. -/
def touchedContent (orig : List Char) (rnd : Nat) : List Char :=
  orig ++ ("\ncmd void fake_cmd_" ++ toString rnd ++ "() {}\n").toList

/-- Model of `withTouchedGLES` (main.go:234-248).  `accessOk` is the joint
outcome of the upfront `os.Stat` and `ioutil.ReadFile` (either failure
returns that error with the file untouched); `g` is the watched file's
state; `rnd` the value of `r.Int()`; `f` the callback, modelled as a state
transformer on `σ` (the closure at main.go:173-178 mutates the revision's
record) returning the callback's `error`.  On the access-ok path the file
is overwritten with the perturbed content, the callback runs, and the
deferred `WriteFile` restores the original bytes with the original mode;
the function's `error` result is the callback's result. -/
def withTouchedGLES {σ : Type} (accessOk : Bool) (g : GlesFile) (rnd : Nat)
    (f : σ → σ × Except Unit Unit) (s : σ) : GlesFile × σ × Except Unit Unit :=
  if accessOk then
    let g1 := writeFile g (touchedContent g.content rnd) g.mode
    let p := f s
    let g2 := writeFile g1 g.content g.mode
    (g2, p.1, p.2)
  else (g, s, Except.error ())

/-- The callback passed to `withTouchedGLES` by `run` (main.go:173-178):
rebuild, and on build success store the duration in the record's
incremental-build-time field; a build failure is swallowed and the callback
returns `nil` either way.  `incBuildResult` is the rebuild outcome:
`some d` for success with duration `d`, `none` for failure. -/
def incCallback (incBuildResult : Option Nat) (r : RevStats) :
    RevStats × Except Unit Unit :=
  match incBuildResult with
  | some d => ({ r with incrementalBuildTime := d }, Except.ok ())
  | none => (r, Except.ok ())

/-! ## The revision iteration driver (`run`, main.go:77-232) -/

/-- One changelist as returned by `g.LogFrom` (newest first). -/
structure CL where
  sha : List Char
  subject : List Char
deriving DecidableEq

/-- The two flags that shape the control flow of the loop: `*incBuild`
(`-inc`) and whether `*pkg` (`-pkg`) is non-empty. -/
structure Flags where
  incBuild : Bool
  pkgSet : Bool
deriving DecidableEq

/-- Outcomes of all external calls made while processing one revision. -/
structure RevOutcome where
  checkoutOk : Bool
  fullBuildOk : Bool
  artifacts : ArtifactStatResults
  traceCallOk : Bool
  traceFileAfterCall : Option (List Char)
  statsCall : Except Unit (List Char)
  glesFile : GlesFile
  glesAccessOk : Bool
  rnd : Nat
  incBuildResult : Option Nat

/-- The body of the revision loop after a successful checkout
(main.go:125-184): full build (failure → `continue`, no record), artifact
sizes, then — when a package filter is set — trace capture (failure →
`continue`) and stats extraction (an error → `continue`), then — when
incremental timing is on — `withTouchedGLES` around the rebuild callback
(a `withTouchedGLES` error → `continue`).  Returns `some record` when the
revision reaches the `append` at main.go:184, `none` when any `continue`
fired. -/
def processRev (fl : Flags) (o : RevOutcome) (sha : List Char) : Option RevStats :=
  if o.fullBuildOk then
    let r0 : RevStats :=
      { sha := sha
        buildTime := 0
        incrementalBuildTime := 0
        fileSizes := gatherFileSizes o.artifacts
        captureStats := ⟨0, 0, 0⟩ }
    let step2 : Option RevStats :=
      if fl.pkgSet then
        match trace o.traceCallOk o.traceFileAfterCall with
        | (Except.error _, _) => none
        | (Except.ok _, _) =>
          let cres := captureStats o.statsCall
          match cres.err with
          | some _ => none
          | none =>
            some { r0 with captureStats := ⟨cres.numFrames, cres.numDraws, cres.numCmds⟩ }
      else some r0
    match step2 with
    | none => none
    | some r1 =>
      if fl.incBuild then
        match withTouchedGLES o.glesAccessOk o.glesFile o.rnd
            (incCallback o.incBuildResult) r1 with
        | (_, _, Except.error _) => none
        | (_, r2, Except.ok _) => some r2
      else some r1
  else none

/-- State of the working tree's HEAD: on a branch, or detached at a
revision. -/
inductive GitHead where
  | onBranch (b : String)
  | detached (sha : List Char)
deriving DecidableEq

/-- Git operations performed by the driver that move HEAD: a checkout of a
revision (`g.Checkout`, main.go:121) and a checkout of a branch
(`g.CheckoutBranch`, deferred at main.go:103). -/
inductive GitOp where
  | checkout (sha : List Char)
  | checkoutBranch (b : String)
deriving DecidableEq

/-- Effect of a git operation on HEAD. -/
def applyOp (_h : GitHead) : GitOp → GitHead
  | GitOp.checkout sha => GitHead.detached sha
  | GitOp.checkoutBranch b => GitHead.onBranch b

/-- Recognizer of the branch-restoring operation. -/
def isRestore : GitOp → Bool
  | GitOp.checkoutBranch _ => true
  | _ => false

/-- The checkout calls (by revision sha, in call order) within an operation
trace. -/
def checkoutCalls (ops : List GitOp) : List (List Char) :=
  ops.filterMap fun o =>
    match o with
    | GitOp.checkout s => some s
    | _ => none

/-- State threaded through the revision loop: HEAD, the trace of git
operations so far, and the accumulated `res` slice. -/
structure LoopState where
  head : GitHead
  ops : List GitOp
  res : List RevStats

/-- The loop over revisions (main.go:113-185).  The list holds the
(fetch-index, changelist) pairs in processing order; Go iterates `i` from
`len(cls)-1` down to `0` with `cl := cls[i]`, so the list is
`cls.enum.reverse`.  Each iteration checks out the revision (a checkout
failure returns the error: the second component is `true` and the loop
stops), then runs `processRev` and appends its record, if any.  The sha
recorded is the first six characters (`cl.SHA.String()[:6]`,
main.go:116). -/
def runLoop (fl : Flags) (out : Nat → RevOutcome) :
    List (Nat × CL) → LoopState → LoopState × Bool
  | [], st => (st, false)
  | (i, cl) :: rest, st =>
    let o := out i
    let st1 : LoopState := { st with ops := st.ops ++ [GitOp.checkout cl.sha] }
    if o.checkoutOk then
      let st2 : LoopState := { st1 with head := applyOp st1.head (GitOp.checkout cl.sha) }
      match processRev fl o (cl.sha.take 6) with
      | some r => runLoop fl out rest { st2 with res := st2.res ++ [r] }
      | none => runLoop fl out rest st2
    else (st1, true)

/-- Outcomes of the external calls made by `run` before the loop. -/
structure World where
  preOk : Bool
  clean : Bool
  branch : String
  logResult : Except Unit (List CL)
  out : Nat → RevOutcome

/-- Observable outcome of a whole run. -/
structure RunResult where
  fatal : Bool
  head : GitHead
  ops : List GitOp
  res : List RevStats

/-- Model of `run` (main.go:77-232).  `preOk` is the joint outcome of
`os.Getwd`, `git.New`, `g.Status` and `g.CurrentBranch` (main.go:78-101):
any failure there returns before the branch-restoring defer is registered.
`clean` is the `s.Clean()` check (main.go:94).  After the defer is
registered (main.go:103), `g.LogFrom` runs; on its failure the run returns
but the deferred `g.CheckoutBranch(ctx, branch)` still executes.
Otherwise the loop runs over `cls.enum.reverse` and the deferred restore
executes on every exit path, including the mid-loop checkout-failure
return. -/
def run (fl : Flags) (w : World) : RunResult :=
  if w.preOk then
    if w.clean then
      match w.logResult with
      | Except.error _ =>
        { fatal := true
          head := applyOp (GitHead.onBranch w.branch) (GitOp.checkoutBranch w.branch)
          ops := [GitOp.checkoutBranch w.branch]
          res := [] }
      | Except.ok cls =>
        let init : LoopState :=
          { head := GitHead.onBranch w.branch, ops := [], res := [] }
        let p := runLoop fl w.out cls.enum.reverse init
        { fatal := p.2
          head := applyOp p.1.head (GitOp.checkoutBranch w.branch)
          ops := p.1.ops ++ [GitOp.checkoutBranch w.branch]
          res := p.1.res }
    else { fatal := true, head := GitHead.onBranch w.branch, ops := [], res := [] }
  else { fatal := true, head := GitHead.onBranch w.branch, ops := [], res := [] }

/-! ## Report formatting (main.go:189-230) -/

/-- One data row of the printed table (main.go:210-230): the sha, then —
conditionally on the flags — the incremental-build time and the three
capture counters, then the nine artifact sizes. -/
def renderRow (fl : Flags) (r : RevStats) : String :=
  String.mk r.sha ++ "," ++
  (if fl.incBuild then "\t   " ++ toString r.incrementalBuildTime ++ "," else "") ++
  (if fl.pkgSet then
      "\t   " ++ toString r.captureStats.commands ++ "," ++
      "\t   " ++ toString r.captureStats.draws ++ "," ++
      "\t   " ++ toString r.captureStats.frames ++ ","
    else "") ++
  "\t   " ++ toString r.fileSizes.libGAPII ++ "," ++
  "\t   " ++ toString r.fileSizes.libVkLayerVirtualSwapchain ++ "," ++
  "\t   " ++ toString r.fileSizes.gapidAarch64APK ++ "," ++
  "\t   " ++ toString r.fileSizes.gapidArmeabi64APK ++ "," ++
  "\t   " ++ toString r.fileSizes.gapidX86APK ++ "," ++
  "\t   " ++ toString r.fileSizes.gapid ++ "," ++
  "\t   " ++ toString r.fileSizes.gapir ++ "," ++
  "\t   " ++ toString r.fileSizes.gapis ++ "," ++
  "\t   " ++ toString r.fileSizes.gapit ++ "\n"

/-- The data rows of the table: the loop `for _, r := range res`
(main.go:210) renders one row per record, in `res` order. -/
def renderTable (fl : Flags) (res : List RevStats) : List String :=
  res.map (renderRow fl)

/-! ## Concrete sample inputs used in the closed evaluations below -/

/-- Sample newest changelist (fetch index 0). -/
def clA : CL := ⟨"aaaaaa0000".toList, "newest subject".toList⟩

/-- Sample older changelist (fetch index 1). -/
def clB : CL := ⟨"bbbbbb1111".toList, "older subject".toList⟩

/-- Sample artifact-stat outcomes with all nine stats succeeding. -/
def okArtifacts : ArtifactStatResults :=
  ⟨some 10, some 20, some 30, some 40, some 50, some 60, some 70, some 80, some 90⟩

/-- Sample per-revision outcome in which every external call succeeds. -/
def okOutcome : RevOutcome where
  checkoutOk := true
  fullBuildOk := true
  artifacts := okArtifacts
  traceCallOk := true
  traceFileAfterCall := some "tracebytes".toList
  statsCall := Except.ok "Frames: 12 Draws: 5 Commands: 40".toList
  glesFile := ⟨"api content".toList, 420⟩
  glesAccessOk := true
  rnd := 7
  incBuildResult := some 9

/-- Flags with incremental timing on and no package filter. -/
def flagsInc : Flags := ⟨true, false⟩

/-- Outcome in which the upfront stat/read of the watched gles source file
fails. -/
def glesFailOutcome : RevOutcome := { okOutcome with glesAccessOk := false }

/-- Outcome in which the perturbed incremental rebuild fails. -/
def glesOkIncFail : RevOutcome := { okOutcome with incBuildResult := none }

/-- Outcome in which the trace-capture invocation fails. -/
def traceFailOutcome : RevOutcome := { okOutcome with traceCallOk := false }

/-- Outcome in which the stats-executable invocation fails. -/
def statsFailOutcome : RevOutcome := { okOutcome with statsCall := Except.error () }

/-- Outcome in which the checkout itself fails. -/
def checkoutFailOutcome : RevOutcome := { okOutcome with checkoutOk := false }

/-- Outcome in which the full build fails. -/
def buildFailOutcome : RevOutcome := { okOutcome with fullBuildOk := false }

/-- World with one revision whose gles stat/read fails. -/
def wGlesFail : World := ⟨true, true, "main", Except.ok [clA], fun _ => glesFailOutcome⟩

/-- World with one revision whose trace capture fails. -/
def wTraceFail : World := ⟨true, true, "main", Except.ok [clA], fun _ => traceFailOutcome⟩

/-- World with two revisions, everything succeeding. -/
def wTwo : World := ⟨true, true, "main", Except.ok [clA, clB], fun _ => okOutcome⟩

/-- World with two revisions where the first processed checkout (fetch
index 1, the oldest) fails fatally. -/
def wFatal : World :=
  ⟨true, true, "main", Except.ok [clA, clB],
    fun i => if i = 1 then checkoutFailOutcome else okOutcome⟩

/-- World with two revisions where the newest one's full build fails. -/
def wBuildFail : World :=
  ⟨true, true, "main", Except.ok [clA, clB],
    fun i => if i = 0 then buildFailOutcome else okOutcome⟩

end Regres

namespace Regres

/-! ## Helper lemmas -/

/-- A successful `Frames` match is the only way `applyMatch` changes the
frames counter. -/
theorem applyMatch_frames_of_none {c : CaptureCounters} {p : List Char × List Char}
    (h : p.1 = "Frames".toList → atoi p.2 = none) :
    (applyMatch c p).frames = c.frames := by
  cases ha : atoi p.2 with
  | none => simp [applyMatch, ha]
  | some n =>
    have hne : ¬ p.1 = "Frames".toList := by
      intro he
      rw [h he] at ha
      cases ha
    unfold applyMatch
    rw [ha]
    simp only [hne, if_false]
    split
    · rfl
    · split <;> rfl

/-- A successful `Draws` match is the only way `applyMatch` changes the
draws counter. -/
theorem applyMatch_draws_of_none {c : CaptureCounters} {p : List Char × List Char}
    (h : p.1 = "Draws".toList → atoi p.2 = none) :
    (applyMatch c p).draws = c.draws := by
  cases ha : atoi p.2 with
  | none => simp [applyMatch, ha]
  | some n =>
    have hne : ¬ p.1 = "Draws".toList := by
      intro he
      rw [h he] at ha
      cases ha
    unfold applyMatch
    rw [ha]
    simp only [hne, if_false]
    split
    · rfl
    · split <;> rfl

/-- A successful `Commands` match is the only way `applyMatch` changes the
commands counter. -/
theorem applyMatch_commands_of_none {c : CaptureCounters} {p : List Char × List Char}
    (h : p.1 = "Commands".toList → atoi p.2 = none) :
    (applyMatch c p).commands = c.commands := by
  cases ha : atoi p.2 with
  | none => simp [applyMatch, ha]
  | some n =>
    have hne : ¬ p.1 = "Commands".toList := by
      intro he
      rw [h he] at ha
      cases ha
    unfold applyMatch
    rw [ha]
    simp only [hne, if_false]
    split
    · rfl
    · split <;> rfl

/-- Folding the match loop over matches none of which is a successful
`Frames` match leaves the frames counter unchanged. -/
theorem foldl_applyMatch_frames :
    ∀ (ms : List (List Char × List Char)) (c : CaptureCounters),
      (∀ p ∈ ms, p.1 = "Frames".toList → atoi p.2 = none) →
      (ms.foldl applyMatch c).frames = c.frames := by
  intro ms
  induction ms with
  | nil => intro c _; rfl
  | cons p t ih =>
    intro c h
    rw [List.foldl_cons, ih (applyMatch c p) (fun q hq => h q (List.mem_cons_of_mem _ hq))]
    exact applyMatch_frames_of_none (h p (List.mem_cons_self _ _))

/-- Folding the match loop over matches none of which is a successful
`Draws` match leaves the draws counter unchanged. -/
theorem foldl_applyMatch_draws :
    ∀ (ms : List (List Char × List Char)) (c : CaptureCounters),
      (∀ p ∈ ms, p.1 = "Draws".toList → atoi p.2 = none) →
      (ms.foldl applyMatch c).draws = c.draws := by
  intro ms
  induction ms with
  | nil => intro c _; rfl
  | cons p t ih =>
    intro c h
    rw [List.foldl_cons, ih (applyMatch c p) (fun q hq => h q (List.mem_cons_of_mem _ hq))]
    exact applyMatch_draws_of_none (h p (List.mem_cons_self _ _))

/-- Folding the match loop over matches none of which is a successful
`Commands` match leaves the commands counter unchanged. -/
theorem foldl_applyMatch_commands :
    ∀ (ms : List (List Char × List Char)) (c : CaptureCounters),
      (∀ p ∈ ms, p.1 = "Commands".toList → atoi p.2 = none) →
      (ms.foldl applyMatch c).commands = c.commands := by
  intro ms
  induction ms with
  | nil => intro c _; rfl
  | cons p t ih =>
    intro c h
    rw [List.foldl_cons, ih (applyMatch c p) (fun q hq => h q (List.mem_cons_of_mem _ hq))]
    exact applyMatch_commands_of_none (h p (List.mem_cons_self _ _))

/-- Membership in `enum` bounds the fetch index by the list length. -/
theorem fst_lt_length_of_mem_enum {α : Type} {p : Nat × α} {l : List α}
    (h : p ∈ l.enum) : p.1 < l.length := by
  have hb := List.fst_lt_add_of_mem_enumFrom (n := 0) (l := l) h
  omega

/-- If some element of `l` is dropped by `filterMap`, the result is
strictly shorter than `l`. -/
theorem length_filterMap_lt_of_mem {α β : Type} {f : α → Option β} {l : List α} {a : α}
    (ha : a ∈ l) (hf : f a = none) : (l.filterMap f).length < l.length := by
  induction l with
  | nil => cases ha
  | cons b t ih =>
    rcases List.mem_cons.mp ha with rfl | hmem
    · simp only [List.filterMap_cons, hf]
      exact Nat.lt_succ_of_le (List.length_filterMap_le f t)
    · cases hfb : f b with
      | none =>
        simp only [List.filterMap_cons, hfb]
        exact Nat.lt_succ_of_lt (ih hmem)
      | some c =>
        simp only [List.filterMap_cons, hfb, List.length_cons]
        exact Nat.succ_lt_succ (ih hmem)

/-- When every checkout in `l` succeeds, the loop never aborts. -/
theorem runLoop_fatal_allOk (fl : Flags) (out : Nat → RevOutcome) :
    ∀ (l : List (Nat × CL)) (st : LoopState),
      (∀ p ∈ l, (out p.1).checkoutOk = true) →
      (runLoop fl out l st).2 = false := by
  intro l
  induction l with
  | nil => intro st _; rfl
  | cons p rest ih =>
    intro st h
    obtain ⟨i, cl⟩ := p
    have hok : (out i).checkoutOk = true := h _ (List.mem_cons_self _ _)
    have hrest := fun q hq => h q (List.mem_cons_of_mem _ hq)
    simp only [runLoop, hok, if_true]
    cases processRev fl (out i) (cl.sha.take 6) <;> exact ih _ hrest

/-- When every checkout in `l` succeeds, the loop's operation trace is the
incoming trace followed by one checkout per element, in processing
order. -/
theorem runLoop_ops_allOk (fl : Flags) (out : Nat → RevOutcome) :
    ∀ (l : List (Nat × CL)) (st : LoopState),
      (∀ p ∈ l, (out p.1).checkoutOk = true) →
      (runLoop fl out l st).1.ops =
        st.ops ++ l.map (fun p => GitOp.checkout p.2.sha) := by
  intro l
  induction l with
  | nil => intro st _; simp [runLoop]
  | cons p rest ih =>
    intro st h
    obtain ⟨i, cl⟩ := p
    have hok : (out i).checkoutOk = true := h _ (List.mem_cons_self _ _)
    have hrest := fun q hq => h q (List.mem_cons_of_mem _ hq)
    simp only [runLoop, hok, if_true]
    cases processRev fl (out i) (cl.sha.take 6) <;>
      simp [ih _ hrest]

/-- When every checkout in `l` succeeds, the loop's accumulated records are
the incoming ones followed by `processRev`'s output for each element that
produced one, in processing order. -/
theorem runLoop_res_allOk (fl : Flags) (out : Nat → RevOutcome) :
    ∀ (l : List (Nat × CL)) (st : LoopState),
      (∀ p ∈ l, (out p.1).checkoutOk = true) →
      (runLoop fl out l st).1.res =
        st.res ++ l.filterMap (fun p => processRev fl (out p.1) (p.2.sha.take 6)) := by
  intro l
  induction l with
  | nil => intro st _; simp [runLoop]
  | cons p rest ih =>
    intro st h
    obtain ⟨i, cl⟩ := p
    have hok : (out i).checkoutOk = true := h _ (List.mem_cons_self _ _)
    have hrest := fun q hq => h q (List.mem_cons_of_mem _ hq)
    simp only [runLoop, hok, if_true]
    cases hpr : processRev fl (out i) (cl.sha.take 6) <;>
      simp [ih _ hrest, List.filterMap_cons, hpr]

/-- The loop only ever emits revision checkouts, never a branch-restoring
checkout, on every path (including the checkout-failure abort). -/
theorem runLoop_ops_countP_restore (fl : Flags) (out : Nat → RevOutcome) :
    ∀ (l : List (Nat × CL)) (st : LoopState),
      ((runLoop fl out l st).1.ops).countP isRestore = st.ops.countP isRestore := by
  intro l
  induction l with
  | nil => intro st; rfl
  | cons p rest ih =>
    intro st
    obtain ⟨i, cl⟩ := p
    by_cases hok : (out i).checkoutOk = true
    · simp only [runLoop, hok, if_true]
      cases processRev fl (out i) (cl.sha.take 6) <;>
        simp [ih, List.countP_append, List.countP_cons, isRestore]
    · simp only [runLoop]
      rw [if_neg hok]
      simp [List.countP_append, List.countP_cons, isRestore]

/-- A trailing branch-restoring checkout adds no checkout call. -/
theorem checkoutCalls_append_restore (l : List GitOp) (b : String) :
    checkoutCalls (l ++ [GitOp.checkoutBranch b]) = checkoutCalls l := by
  unfold checkoutCalls
  rw [List.filterMap_append]
  simp [List.filterMap_cons]

/-- The checkout calls of a pure checkout trace, by sha. -/
theorem checkoutCalls_map_checkout (l : List (Nat × CL)) :
    checkoutCalls (l.map (fun p => GitOp.checkout p.2.sha)) =
      l.map (fun p => p.2.sha) := by
  unfold checkoutCalls
  rw [List.filterMap_map]
  exact congrFun (List.filterMap_eq_map (fun p : Nat × CL => p.2.sha)) l

end Regres
namespace Regres

/-! ## Claim theorems -/

/-- C2: the stats parser maps "Frames: 12 Draws: 5 Commands: 40" to
frames=12, draws=5, commands=40; an unrecognized token such as "Foo: 9"
leaves all three counters unchanged (both alone and amid recognized
tokens); and an input whose value is non-numeric, such as "Frames: abc",
leaves the corresponding counter at its prior default of 0. -/
theorem captureStatsParse_examples :
    captureStatsParse ("Frames: 12 Draws: 5 Commands: 40".toList) = ⟨12, 5, 40⟩ ∧
    captureStatsParse ("Foo: 9".toList) = ⟨0, 0, 0⟩ ∧
    captureStatsParse ("Frames: 12 Foo: 9 Draws: 5 Commands: 40".toList) = ⟨12, 5, 40⟩ ∧
    captureStatsParse ("Frames: abc".toList) = ⟨0, 0, 0⟩ := by
  refine ⟨?_, ?_, ?_, ?_⟩ <;> decide

/-- C10: when any of the three recognized counter names — Frames, Draws or
Commands — occurs in several matches, the parser's fold assigns that
counter the value of the last successful occurrence: whenever the match
list splits as `ms1 ++ (w, d) :: ms2` with `d` converting to `n` and no
later successful `w` match in `ms2`, the parsed counter selected by `w` is
`n`, overwriting anything `ms1` assigned to it. -/
theorem last_occurrence_wins (s : List Char) (ms1 ms2 : List (List Char × List Char))
    (w d : List Char) (n : Nat)
    (hw : w = "Frames".toList ∨ w = "Draws".toList ∨ w = "Commands".toList)
    (hs : findAllMatches s = ms1 ++ (w, d) :: ms2)
    (hd : atoi d = some n)
    (h2 : ∀ p ∈ ms2, p.1 = w → atoi p.2 = none) :
    counterOf w (captureStatsParse s) = n := by
  unfold captureStatsParse
  rw [hs, List.foldl_append, List.foldl_cons]
  rcases hw with hw | hw | hw <;> subst hw
  · unfold counterOf
    rw [if_pos rfl, foldl_applyMatch_frames ms2 _ h2]
    unfold applyMatch
    rw [hd]
    rfl
  · unfold counterOf
    rw [if_neg (by decide), if_pos rfl, foldl_applyMatch_draws ms2 _ h2]
    unfold applyMatch
    rw [hd]
    rfl
  · unfold counterOf
    rw [if_neg (by decide), if_neg (by decide), if_pos rfl,
      foldl_applyMatch_commands ms2 _ h2]
    unfold applyMatch
    rw [hd]
    rfl

/-- Witness for C10 at the concrete stats output
"Frames: 1 Frames: 2 Draws: 3 Draws: 4 Commands: 5 Commands: 6": each of
the three counters ends at its later occurrence. -/
theorem last_occurrence_wins_witness :
    atoi ['2'] = some 2 ∧
    counterOf ("Frames".toList)
      (captureStatsParse
        ("Frames: 1 Frames: 2 Draws: 3 Draws: 4 Commands: 5 Commands: 6".toList)) = 2 ∧
    counterOf ("Draws".toList)
      (captureStatsParse
        ("Frames: 1 Frames: 2 Draws: 3 Draws: 4 Commands: 5 Commands: 6".toList)) = 4 ∧
    counterOf ("Commands".toList)
      (captureStatsParse
        ("Frames: 1 Frames: 2 Draws: 3 Draws: 4 Commands: 5 Commands: 6".toList)) = 6 :=
  ⟨by decide,
    last_occurrence_wins _
      [("Frames".toList, ['1'])]
      [("Draws".toList, ['3']), ("Draws".toList, ['4']),
        ("Commands".toList, ['5']), ("Commands".toList, ['6'])]
      ("Frames".toList) ['2'] 2 (Or.inl rfl) (by decide) (by decide) (by decide),
    last_occurrence_wins _
      [("Frames".toList, ['1']), ("Frames".toList, ['2']), ("Draws".toList, ['3'])]
      [("Commands".toList, ['5']), ("Commands".toList, ['6'])]
      ("Draws".toList) ['4'] 4 (Or.inr (Or.inl rfl)) (by decide) (by decide) (by decide),
    last_occurrence_wins _
      [("Frames".toList, ['1']), ("Frames".toList, ['2']), ("Draws".toList, ['3']),
        ("Draws".toList, ['4']), ("Commands".toList, ['5'])]
      []
      ("Commands".toList) ['6'] 6 (Or.inr (Or.inr rfl)) (by decide) (by decide)
      (fun p hp => nomatch hp)⟩

/-- C5: the perturbation cycle is a round-trip on the watched file — for
every initial content and permission mode, every random suffix, and every
callback (succeeding or failing), the file state after `withTouchedGLES`
equals the state before; on the access-failure path the file was never
touched. -/
theorem withTouchedGLES_roundtrip {σ : Type} (accessOk : Bool) (g : GlesFile)
    (rnd : Nat) (f : σ → σ × Except Unit Unit) (s : σ) :
    (withTouchedGLES accessOk g rnd f s).1 = g := by
  cases accessOk <;> rfl

/-- C3: with a package filter set, a trace-capture failure makes
`processRev` return `none` — the revision contributes no record, the
artifact sizes already placed in the draft record are discarded — the
partial trace output file is removed by `trace`, and at the run level the
result sequence is strictly shorter than the window. -/
theorem trace_failure_skips_revision (fl : Flags) (o : RevOutcome)
    (hpk : fl.pkgSet = true) (ht : o.traceCallOk = false) :
    (∀ sha, processRev fl o sha = none) ∧
    (∀ tf, trace false tf = (Except.error (), none)) ∧
    (∀ (w : World) (cls : List CL) (j : Nat) (cl : CL),
      w.preOk = true → w.clean = true → w.logResult = Except.ok cls →
      (∀ i, i < cls.length → (w.out i).checkoutOk = true) →
      (j, cl) ∈ cls.enum → w.out j = o →
      (run fl w).res.length < cls.length) := by
  have hnone : ∀ sha, processRev fl o sha = none := by
    intro sha
    by_cases hb : o.fullBuildOk = true
    · simp [processRev, hb, hpk, ht, trace]
    · simp [processRev, hb]
  refine ⟨hnone, fun tf => rfl, ?_⟩
  intro w cls j cl hp hc hl hok hj hout
  have hmem : ∀ p ∈ cls.enum.reverse, (w.out p.1).checkoutOk = true := fun p hpm =>
    hok p.1 (fst_lt_length_of_mem_enum (List.mem_reverse.mp hpm))
  have hres := runLoop_res_allOk fl w.out cls.enum.reverse
    ⟨GitHead.onBranch w.branch, [], []⟩ hmem
  have hjm : (j, cl) ∈ cls.enum.reverse := List.mem_reverse.mpr hj
  have hfn : processRev fl (w.out j) (cl.sha.take 6) = none := by
    rw [hout]
    exact hnone _
  have hlt := @length_filterMap_lt_of_mem (Nat × CL) RevStats
    (fun p => processRev fl (w.out p.1) (p.2.sha.take 6)) cls.enum.reverse (j, cl) hjm hfn
  simp only [run, hp, hc, hl, if_true]
  simp only [hres, List.nil_append]
  simpa using hlt

/-- Witness for C3: a concrete failing trace capture with every other call
succeeding; the revision is skipped and the partial file removed. -/
theorem trace_failure_skips_revision_witness :
    traceFailOutcome.traceCallOk = false ∧
    processRev ⟨false, true⟩ traceFailOutcome ("aaaaaa".toList) = none ∧
    trace false (some ("partial".toList)) = (Except.error (), none) ∧
    (run ⟨false, true⟩ wTraceFail).res.length < 1 :=
  ⟨rfl,
    (trace_failure_skips_revision ⟨false, true⟩ traceFailOutcome rfl rfl).1 _,
    (trace_failure_skips_revision ⟨false, true⟩ traceFailOutcome rfl rfl).2.1 _,
    (trace_failure_skips_revision ⟨false, true⟩ traceFailOutcome rfl rfl).2.2
      wTraceFail [clA] 0 clA rfl rfl rfl (fun _ _ => rfl) (by decide) rfl⟩

/-- C8: a failed invocation of the stats executable makes `captureStats`
return zero counters and a nil error, and the revision is still recorded
with zero counters — unlike a trace-capture failure, which skips the
revision. -/
theorem stats_invocation_failure_yields_zeros (fl : Flags) (o : RevOutcome)
    (sha : List Char)
    (hpk : fl.pkgSet = true) (hinc : fl.incBuild = false)
    (hb : o.fullBuildOk = true) (ht : o.traceCallOk = true)
    (hs : o.statsCall = Except.error ()) :
    captureStats o.statsCall = ⟨0, 0, 0, none⟩ ∧
    (∃ r, processRev fl o sha = some r ∧ r.captureStats = ⟨0, 0, 0⟩) ∧
    (∀ o2 : RevOutcome, o2.traceCallOk = false → processRev fl o2 sha = none) := by
  have hpr : processRev fl o sha = some
      { sha := sha
        buildTime := 0
        incrementalBuildTime := 0
        fileSizes := gatherFileSizes o.artifacts
        captureStats := ⟨0, 0, 0⟩ } := by
    simp [processRev, hb, hpk, ht, hinc, hs, trace, captureStats]
  refine ⟨by rw [hs]; rfl, ⟨_, hpr, rfl⟩, ?_⟩
  intro o2 ho2
  by_cases hb2 : o2.fullBuildOk = true
  · simp [processRev, hb2, hpk, ho2, trace]
  · simp [processRev, hb2]

/-- Witness for C8: a concrete stats-invocation failure; the record
survives with zero counters, while a concrete trace failure skips. -/
theorem stats_invocation_failure_witness :
    statsFailOutcome.statsCall = Except.error () ∧
    captureStats (Except.error ()) = ⟨0, 0, 0, none⟩ ∧
    (∃ r, processRev ⟨false, true⟩ statsFailOutcome ("aaaaaa".toList) = some r ∧
      r.captureStats = ⟨0, 0, 0⟩) ∧
    processRev ⟨false, true⟩ traceFailOutcome ("aaaaaa".toList) = none :=
  ⟨rfl,
    (stats_invocation_failure_yields_zeros ⟨false, true⟩ statsFailOutcome
      ("aaaaaa".toList) rfl rfl rfl rfl rfl).1,
    (stats_invocation_failure_yields_zeros ⟨false, true⟩ statsFailOutcome
      ("aaaaaa".toList) rfl rfl rfl rfl rfl).2.1,
    (stats_invocation_failure_yields_zeros ⟨false, true⟩ statsFailOutcome
      ("aaaaaa".toList) rfl rfl rfl rfl rfl).2.2 traceFailOutcome rfl⟩

/-- C9: `captureStats` never returns a non-nil error, on any invocation
outcome; consequently the caller's branch that skips a revision on a stats
error is unreachable — with build, trace and checkout all fine, the
revision is always recorded. -/
theorem captureStats_never_errors :
    (∀ c, (captureStats c).err = none) ∧
    (∀ (fl : Flags) (o : RevOutcome) (sha : List Char),
      fl.pkgSet = true → o.fullBuildOk = true → o.traceCallOk = true →
      fl.incBuild = false → (processRev fl o sha).isSome = true) := by
  constructor
  · intro c
    cases c <;> rfl
  · intro fl o sha hpk hb ht hinc
    have herr : (captureStats o.statsCall).err = none := by cases o.statsCall <;> rfl
    simp [processRev, hb, hpk, ht, hinc, trace, herr]

/-- Witness for C9 at concrete inputs: no error from a successful stats
call, and the revision survives. -/
theorem captureStats_never_errors_witness :
    (captureStats (Except.ok ("Frames: 12".toList))).err = none ∧
    (⟨false, true⟩ : Flags).pkgSet = true ∧
    okOutcome.fullBuildOk = true ∧
    (processRev ⟨false, true⟩ okOutcome ("aaaaaa".toList)).isSome = true :=
  ⟨captureStats_never_errors.1 _, rfl, rfl,
    captureStats_never_errors.2 ⟨false, true⟩ okOutcome _ rfl rfl rfl rfl⟩

end Regres
namespace Regres

/-- C1 counterexample: a concrete run with incremental timing enabled in
which the perturbation step's stat/read of the watched source file fails;
contrary to the claim, the revision is NOT appended — the completed,
non-fatal run ends with an empty result sequence. -/
theorem gles_access_failure_skips_revision_cx :
    flagsInc.incBuild = true ∧
    (wGlesFail.out 0).checkoutOk = true ∧
    (wGlesFail.out 0).fullBuildOk = true ∧
    (wGlesFail.out 0).glesAccessOk = false ∧
    (run flagsInc wGlesFail).fatal = false ∧
    (run flagsInc wGlesFail).res = [] := by
  refine ⟨rfl, rfl, rfl, rfl, ?_, ?_⟩ <;> decide

/-- C1 amended: with incremental timing enabled, a stat/read failure of
the watched source file makes `withTouchedGLES` return an error and the
revision is skipped (contributes no record); only a failure of the
rebuild inside the callback is swallowed — the incremental-build-time
field stays at its zero default and the revision is still recorded. -/
theorem incremental_failure_policy_amended (fl : Flags) (o : RevOutcome)
    (sha : List Char)
    (hinc : fl.incBuild = true) (hpk : fl.pkgSet = false)
    (hb : o.fullBuildOk = true) :
    (o.glesAccessOk = false → processRev fl o sha = none) ∧
    (o.glesAccessOk = true → o.incBuildResult = none →
      ∃ r, processRev fl o sha = some r ∧ r.incrementalBuildTime = 0) := by
  constructor
  · intro hg
    simp [processRev, hb, hpk, hinc, withTouchedGLES, hg]
  · intro hg hi
    have hpr : processRev fl o sha = some
        { sha := sha
          buildTime := 0
          incrementalBuildTime := 0
          fileSizes := gatherFileSizes o.artifacts
          captureStats := ⟨0, 0, 0⟩ } := by
      simp [processRev, hb, hpk, hinc, withTouchedGLES, hg, hi, incCallback, writeFile]
    exact ⟨_, hpr, rfl⟩

/-- Witness for the amended C1: a concrete access failure skips the
revision; a concrete rebuild failure keeps it with zero incremental
time. -/
theorem incremental_failure_policy_witness :
    flagsInc.incBuild = true ∧
    glesFailOutcome.glesAccessOk = false ∧
    processRev flagsInc glesFailOutcome ("aaaaaa".toList) = none ∧
    glesOkIncFail.incBuildResult = none ∧
    (∃ r, processRev flagsInc glesOkIncFail ("aaaaaa".toList) = some r ∧
      r.incrementalBuildTime = 0) :=
  ⟨rfl, rfl,
    (incremental_failure_policy_amended flagsInc glesFailOutcome
      ("aaaaaa".toList) rfl rfl rfl).1 rfl,
    rfl,
    (incremental_failure_policy_amended flagsInc glesOkIncFail
      ("aaaaaa".toList) rfl rfl rfl).2 rfl rfl⟩

/-- C4: when the pre-loop steps succeed and no checkout fails, the run
performs exactly one checkout per listed revision — N calls for a window
of N — and the checkout sequence is the reverse of the newest-first
listing order, i.e. oldest first. -/
theorem checkout_order_and_count (fl : Flags) (w : World) (cls : List CL)
    (hp : w.preOk = true) (hc : w.clean = true)
    (hl : w.logResult = Except.ok cls)
    (hok : ∀ i, i < cls.length → (w.out i).checkoutOk = true) :
    checkoutCalls (run fl w).ops = (cls.map CL.sha).reverse ∧
    (checkoutCalls (run fl w).ops).length = cls.length := by
  have hmem : ∀ p ∈ cls.enum.reverse, (w.out p.1).checkoutOk = true := fun p hpm =>
    hok p.1 (fst_lt_length_of_mem_enum (List.mem_reverse.mp hpm))
  have hops := runLoop_ops_allOk fl w.out cls.enum.reverse
    ⟨GitHead.onBranch w.branch, [], []⟩ hmem
  have hmain : checkoutCalls (run fl w).ops = (cls.map CL.sha).reverse := by
    simp only [run, hp, hc, hl, if_true]
    rw [checkoutCalls_append_restore, hops, List.nil_append]
    calc checkoutCalls (cls.enum.reverse.map fun p => GitOp.checkout p.2.sha)
        = cls.enum.reverse.map (fun p => p.2.sha) := checkoutCalls_map_checkout _
      _ = cls.enum.reverse.map (CL.sha ∘ Prod.snd) := rfl
      _ = (cls.enum.map (CL.sha ∘ Prod.snd)).reverse := by rw [List.map_reverse]
      _ = ((cls.enum.map Prod.snd).map CL.sha).reverse := by rw [List.map_map]
      _ = (cls.map CL.sha).reverse := by rw [List.enum_map_snd]
  exact ⟨hmain, by rw [hmain]; simp⟩

/-- Witness for C4: a two-revision window with a newest-first listing
[clA, clB] produces exactly the two checkouts [clB, clA], oldest first. -/
theorem checkout_order_and_count_witness :
    wTwo.logResult = Except.ok [clA, clB] ∧
    checkoutCalls (run ⟨true, true⟩ wTwo).ops = [clB.sha, clA.sha] ∧
    (checkoutCalls (run ⟨true, true⟩ wTwo).ops).length = 2 :=
  ⟨rfl,
    (checkout_order_and_count ⟨true, true⟩ wTwo [clA, clB] rfl rfl rfl
      (fun _ _ => rfl)).1,
    (checkout_order_and_count ⟨true, true⟩ wTwo [clA, clB] rfl rfl rfl
      (fun _ _ => rfl)).2⟩

/-- C6: whenever the run gets past the cleanliness check, its operation
trace contains exactly one branch-restoring checkout, that restore is the
very last operation (end of run, not per iteration), and the final HEAD
equals the branch recorded at the start — on every exit path, including a
fatal mid-loop checkout failure and a failed revision listing. -/
theorem branch_restored_once (fl : Flags) (w : World)
    (hp : w.preOk = true) (hc : w.clean = true) :
    (run fl w).ops.countP isRestore = 1 ∧
    (run fl w).ops.getLast? = some (GitOp.checkoutBranch w.branch) ∧
    (run fl w).head = GitHead.onBranch w.branch := by
  cases hl : w.logResult with
  | error e =>
    refine ⟨?_, ?_, ?_⟩ <;>
      simp [run, hp, hc, hl, isRestore, applyOp, List.countP_cons]
  | ok cls =>
    have hcount := runLoop_ops_countP_restore fl w.out cls.enum.reverse
      ⟨GitHead.onBranch w.branch, [], []⟩
    refine ⟨?_, ?_, ?_⟩
    · simp only [run, hp, hc, hl, if_true]
      rw [List.countP_append, hcount]
      simp [List.countP_cons, isRestore]
    · simp only [run, hp, hc, hl, if_true]
      exact List.getLast?_concat _
    · simp [run, hp, hc, hl, applyOp]

/-- Witness for C6: a run aborted by a mid-loop checkout failure still
restores the branch exactly once, as its final operation. -/
theorem branch_restored_once_witness :
    wFatal.preOk = true ∧ wFatal.clean = true ∧
    (run ⟨true, true⟩ wFatal).fatal = true ∧
    (run ⟨true, true⟩ wFatal).ops.countP isRestore = 1 ∧
    (run ⟨true, true⟩ wFatal).ops.getLast? = some (GitOp.checkoutBranch "main") ∧
    (run ⟨true, true⟩ wFatal).head = GitHead.onBranch "main" :=
  ⟨rfl, rfl, by decide,
    (branch_restored_once ⟨true, true⟩ wFatal rfl rfl).1,
    (branch_restored_once ⟨true, true⟩ wFatal rfl rfl).2.1,
    (branch_restored_once ⟨true, true⟩ wFatal rfl rfl).2.2⟩

/-- C7: a revision whose full build fails contributes no record, so the
final sequence is strictly shorter than the window; and the printed table
has exactly one row per surviving record, in processing order. -/
theorem build_failure_drops_record (fl : Flags) (w : World) (cls : List CL)
    (j : Nat) (cl : CL)
    (hp : w.preOk = true) (hc : w.clean = true)
    (hl : w.logResult = Except.ok cls)
    (hok : ∀ i, i < cls.length → (w.out i).checkoutOk = true)
    (hj : (j, cl) ∈ cls.enum) (hb : (w.out j).fullBuildOk = false) :
    (run fl w).res.length < cls.length ∧
    renderTable fl (run fl w).res = ((run fl w).res).map (renderRow fl) := by
  refine ⟨?_, rfl⟩
  have hmem : ∀ p ∈ cls.enum.reverse, (w.out p.1).checkoutOk = true := fun p hpm =>
    hok p.1 (fst_lt_length_of_mem_enum (List.mem_reverse.mp hpm))
  have hres := runLoop_res_allOk fl w.out cls.enum.reverse
    ⟨GitHead.onBranch w.branch, [], []⟩ hmem
  have hjm : (j, cl) ∈ cls.enum.reverse := List.mem_reverse.mpr hj
  have hfn : processRev fl (w.out j) (cl.sha.take 6) = none := by
    simp [processRev, hb]
  have hlt := @length_filterMap_lt_of_mem (Nat × CL) RevStats
    (fun p => processRev fl (w.out p.1) (p.2.sha.take 6)) cls.enum.reverse (j, cl) hjm hfn
  simp only [run, hp, hc, hl, if_true]
  simp only [hres, List.nil_append]
  simpa using hlt

/-- Witness for C7: two revisions, the newest one's build fails; the run
yields fewer records than the window and one table row per record. -/
theorem build_failure_drops_record_witness :
    (0, clA) ∈ ([clA, clB] : List CL).enum ∧
    (wBuildFail.out 0).fullBuildOk = false ∧
    (run ⟨true, false⟩ wBuildFail).res.length < 2 ∧
    renderTable ⟨true, false⟩ (run ⟨true, false⟩ wBuildFail).res =
      ((run ⟨true, false⟩ wBuildFail).res).map (renderRow ⟨true, false⟩) :=
  ⟨by decide, rfl,
    (build_failure_drops_record ⟨true, false⟩ wBuildFail [clA, clB] 0 clA
      rfl rfl rfl (by decide) (by decide) rfl).1,
    (build_failure_drops_record ⟨true, false⟩ wBuildFail [clA, clB] 0 clA
      rfl rfl rfl (by decide) (by decide) rfl).2⟩

end Regres
